import Mathlib

/-!
Shallow embedding of the json-describe tool (src/main.rs): a schema-inference
tool that parses a single JSON document from a token stream and prints a merged
structural summary.  The embedding models:

* `Token` — the normalized grammar tokens (src/main.rs lines 13-25);
* `Value` — the schema node sum type (lines 54-62); Rust's `HashSet<String>`
  example sets are modelled as duplicate-free `List String` values whose list
  order stands for the hash set's (unspecified, per-process randomized)
  iteration order, and `HashMap` field maps as association lists whose order
  stands for insertion order (rendering sorts keys, so the order of the
  association list never influences output);
* `Value.merge_with` — the merge algebra (lines 101-181), written with an
  explicit fuel parameter (`mergeWithF`) because the Rust recursion is nested
  through vectors; the wrapper supplies fuel strictly larger than the nesting
  depth of the right operand, which is the argument the recursion descends on,
  so the fuelled function never runs out on the wrapper's calls;
* the renderer (`impl fmt::Debug for Value`, lines 184-250), modelled up to
  whitespace/indentation (the exact layout of `{:#?}` is an implementation
  choice per the spec); string sorting uses the underlying character lists,
  matching Rust's byte-lexicographic `str` order on the ASCII data appearing
  here;
* `parse_value` / `describe` — the recursive-descent parser (lines 292-359),
  with fuel for the recursion and `Option` for the panics.
-/

/-- Token models the normalized lexer tokens of src/main.rs lines 13-25. -/
inductive Token where
  | curlyOpen
  | curlyClose
  | bracketOpen
  | bracketClose
  | colon
  | comma
  | string (s : String)
  | boolean
  | number (s : String)
  | null
deriving DecidableEq

/-- Value models the schema node enum of src/main.rs lines 54-62.  Scalar
example sets (`HashSet<String>`) become duplicate-free lists in iteration
order; object field maps (`HashMap<String, (Vec<Value>, bool)>`) become
association lists. -/
inductive Value where
  | string (examples : List String) (more : Bool)
  | boolean
  | number (examples : List String) (more : Bool)
  | null
  | object (pairs : List (String × (List Value × Bool)))
  | array (values : List Value) (minLen maxLen : Nat)

mutual

/-- vsize measures the nesting of a schema value; it is used only to supply
enough fuel to the fuelled merge function, never by the modelled code. -/
def vsize : Value → Nat
  | .string _ _ => 1
  | .boolean => 1
  | .number _ _ => 1
  | .null => 1
  | .object pairs => 1 + fieldsSize pairs
  | .array vs _ _ => 1 + valuesSize vs

/-- fieldsSize sums the sizes of the alternative lists of an object. -/
def fieldsSize : List (String × (List Value × Bool)) → Nat
  | [] => 0
  | (_, (vs, _)) :: rest => 1 + valuesSize vs + fieldsSize rest

/-- valuesSize sums the sizes of a list of schema values. -/
def valuesSize : List Value → Nat
  | [] => 0
  | v :: rest => vsize v + valuesSize rest

end

/-- MAX_EXAMPLES is the example cap of src/main.rs line 64. -/
def MAX_EXAMPLES : Nat := 4

/-- Value.sort_key models src/main.rs lines 90-99: the fixed type-precedence
order used when rendering array element alternatives. -/
def Value.sort_key : Value → Nat
  | .null => 1
  | .boolean => 2
  | .number _ _ => 3
  | .string _ _ => 4
  | .array _ _ _ => 5
  | .object _ => 6

/-- Value.from_token models src/main.rs lines 67-88.  The `panic!` for
structural-close and punctuation tokens becomes `none`. -/
def Value.from_token : Token → Option Value
  | .string s => some (.string [s] false)
  | .number s => some (.number [s] false)
  | .boolean => some .boolean
  | .null => some .null
  | .curlyOpen => some (.object [])
  | .bracketOpen => some (.array [] 0 0)
  | _ => none

/-- mergeExamples models the scalar-merge loop of src/main.rs lines 105-115:
clone the left example set, then walk the right set in iteration order; once
the cap is reached, flag `more` if the example about to be dropped is new, and
stop (the remaining right examples are skipped unexamined).  The right
operand's `more` flag is never consulted here, mirroring the `_` binding at
lines 103-104. -/
def mergeExamples (examples : List String) (more : Bool) :
    List String → List String × Bool
  | [] => (examples, more)
  | ex :: rest =>
    if MAX_EXAMPLES ≤ examples.length then
      (examples, if ex ∈ examples then more else true)
    else
      mergeExamples (if ex ∈ examples then examples else examples ++ [ex]) more rest

/-- mergeInto models the first-successful-match reconciliation loop that
appears at src/main.rs lines 141-151 (objects), 165-175 (arrays) and 329-339
(array parsing): try the new value against each existing alternative in turn;
the first successful merge replaces that alternative, otherwise append. -/
def mergeInto (mw : Value → Value → Option Value) : List Value → Value → List Value
  | [], ov => [ov]
  | v :: rest, ov =>
    match mw v ov with
    | some m => m :: rest
    | none => v :: mergeInto mw rest ov

/-- mergeAll folds mergeInto over every value of the right-hand list, as in
the `for other_value in other_values` loops of src/main.rs lines 140 and 164. -/
def mergeAll (mw : Value → Value → Option Value) : List Value → List Value → List Value
  | news, [] => news
  | news, ov :: rest => mergeAll mw (mergeInto mw news ov) rest

/-- lookupField models `HashMap::get` on the association-list encoding. -/
def lookupField (pairs : List (String × (List Value × Bool))) (key : String) :
    Option (List Value × Bool) :=
  match pairs with
  | [] => none
  | (k, e) :: rest => if k = key then some e else lookupField rest key

/-- mergeFields models the Object/Object branch of src/main.rs lines 124-161:
for a key in both sides, reconcile the right alternatives into the left ones
and keep the LEFT side's `missing` flag (the right entry's flag `entry.1` of
the other side is never read — line 139 copies only `self`'s); for a key on
one side only, carry the alternatives with the flag forced true. -/
def mergeFields (mw : Value → Value → Option Value)
    (sp op : List (String × (List Value × Bool))) :
    List (String × (List Value × Bool)) :=
  (sp.map fun p =>
    match lookupField op p.1 with
    | some e => (p.1, (mergeAll mw p.2.1 e.1, p.2.2))
    | none => (p.1, (p.2.1, true)))
  ++ ((op.filter fun p => (lookupField sp p.1).isNone).map fun p => (p.1, (p.2.1, true)))

/-- mergeWithF is the fuelled form of `Value::merge_with` (src/main.rs lines
101-181).  Fuel only bounds the recursion depth, which in the source is bounded
by the nesting of the right operand; the wrapper `Value.merge_with` always
supplies enough. -/
def mergeWithF : Nat → Value → Value → Option Value
  | 0, _, _ => none
  | fuel+1, a, b =>
    match a, b with
    | .string ex1 more1, .string ex2 _ =>
      some (.string (mergeExamples ex1 more1 ex2).1 (mergeExamples ex1 more1 ex2).2)
    | .number ex1 more1, .number ex2 _ =>
      some (.number (mergeExamples ex1 more1 ex2).1 (mergeExamples ex1 more1 ex2).2)
    | .boolean, .boolean => some .boolean
    | .null, .null => some .null
    | .object sp, .object op => some (.object (mergeFields (mergeWithF fuel) sp op))
    | .array vs1 mn1 mx1, .array vs2 mn2 mx2 =>
      some (.array (mergeAll (mergeWithF fuel) vs1 vs2) (Nat.min mn1 mn2) (Nat.max mx1 mx2))
    | _, _ => none

/-- Value.merge_with is `Value::merge_with` of src/main.rs lines 101-181;
`Err(())` (the merge mismatch, a normal control path) becomes `none`. -/
def Value.merge_with (a b : Value) : Option Value :=
  mergeWithF (vsize b + 1) a b

/-- dataLe is byte-lexicographic string order (Rust's `Ord for String`),
modelled on the character lists. -/
def dataLe (a b : String) : Prop := a.data ≤ b.data

instance : DecidableRel dataLe := fun a b => inferInstanceAs (Decidable (a.data ≤ b.data))

/-- entryLe orders rendered object entries by key, as `pairs.sort_unstable_by`
does at src/main.rs line 213. -/
def entryLe (a b : String × String) : Prop := dataLe a.1 b.1

instance : DecidableRel entryLe := fun a b => inferInstanceAs (Decidable (dataLe a.1 b.1))

/-- itemLe orders rendered array alternatives by `sort_key`, as
`sort_unstable_by_key` does at src/main.rs line 226. -/
def itemLe (a b : Nat × String) : Prop := a.1 ≤ b.1

instance : DecidableRel itemLe := fun a b => inferInstanceAs (Decidable (a.1 ≤ b.1))

/-- sortExamples models `examples.sort()` at src/main.rs line 194. -/
def sortExamples (l : List String) : List String := List.insertionSort dataLe l

/-- joinSep joins rendered pieces with a separator, standing for the
sequential `write_str` calls of the Debug impl. -/
def joinSep (sep : String) : List String → String
  | [] => ""
  | [s] => s
  | s :: rest => s ++ sep ++ joinSep sep rest

/-- renderExamples models src/main.rs lines 193-206: sorted examples joined by
a comma, with a trailing ", ..." iff `more` is set. -/
def renderExamples (examples : List String) (more : Bool) : String :=
  joinSep ", " (sortExamples examples) ++ if more then ", ..." else ""

/-- renderF models `impl fmt::Debug for Value` (src/main.rs lines 184-250) up
to whitespace: scalars as `Kind (examples)`, objects as a key-sorted map with
quoted keys where a field is prefixed by "optional " iff its missing flag is
set and a multi-alternative field renders as a tuple (ValuesFormat, lines
233-250), arrays as `Array (len N)` or `Array (len MIN..MAX)` followed by the
alternatives sorted by `sort_key`.  Fuel bounds the recursion depth; the
wrapper `render` always supplies enough. -/
def renderF : Nat → Value → String
  | 0, _ => ""
  | fuel+1, v =>
    match v with
    | .string ex more => "String (" ++ renderExamples ex more ++ ")"
    | .number ex more => "Number (" ++ renderExamples ex more ++ ")"
    | .boolean => "Boolean"
    | .null => "null"
    | .object pairs =>
      let entries := pairs.map fun p =>
        (p.1,
          (if p.2.2 then "optional " else "") ++
            match p.2.1 with
            | [v1] => renderF fuel v1
            | vs => "(" ++ joinSep ", " (vs.map (renderF fuel)) ++ ")")
      "\x7b" ++ joinSep ", " ((List.insertionSort entryLe entries).map
        fun e => "\"" ++ e.1 ++ "\": " ++ e.2) ++ "\x7d"
    | .array vs mn mx =>
      let items := vs.map fun v1 => (v1.sort_key, renderF fuel v1)
      "Array (len " ++ (if mn = mx then toString mn else toString mn ++ ".." ++ toString mx)
        ++ ") [" ++ joinSep ", " ((List.insertionSort itemLe items).map Prod.snd) ++ "]"

/-- render is the top-level deterministic rendering of a schema value. -/
def render (v : Value) : String := renderF (vsize v + 1) v

/-- stripQuotes models `key[1..key.len() - 1]` at src/main.rs line 303. -/
def stripQuotes (k : String) : String := (k.drop 1).dropRight 1

mutual

/-- parse_value models src/main.rs lines 292-353.  Fuel bounds the recursion;
every `panic!`/`unwrap` failure becomes `none`.  The function returns the
parsed schema value together with the unconsumed tokens. -/
def parse_value : Nat → List Token → Option (Value × List Token)
  | 0, _ => none
  | _+1, [] => none
  | fuel+1, t :: rest =>
    match Value.from_token t with
    | none => none
    | some (.object _) =>
      (match rest with
       | .curlyClose :: rest2 => some (.object [], rest2)
       | _ => parseObjectLoop fuel [] rest)
    | some (.array _ _ _) =>
      (match rest with
       | .bracketClose :: rest2 => some (.array [] 0 0, rest2)
       | _ => parseArrayLoop fuel [] 0 rest)
    | some v => some (v, rest)

/-- parseObjectLoop models the object member loop of src/main.rs lines
300-320: expect a string key, strip its quotes, fail on a duplicate key within
this object literal, expect a colon, parse the value, record the pair with
`is_optional = false`, then continue on a comma or finish on a closing brace. -/
def parseObjectLoop :
    Nat → List (String × (List Value × Bool)) → List Token → Option (Value × List Token)
  | 0, _, _ => none
  | fuel+1, pairs, ts =>
    match ts with
    | .string k :: rest =>
      if stripQuotes k ∈ pairs.map Prod.fst then none
      else
        match rest with
        | .colon :: rest2 =>
          match parse_value fuel rest2 with
          | some (v, rest3) =>
            match rest3 with
            | .comma :: rest4 =>
              parseObjectLoop fuel (pairs ++ [(stripQuotes k, ([v], false))]) rest4
            | .curlyClose :: rest4 =>
              some (.object (pairs ++ [(stripQuotes k, ([v], false))]), rest4)
            | _ => none
          | none => none
        | _ => none
    | _ => none

/-- parseArrayLoop models the array element loop of src/main.rs lines 323-349:
parse an element, reconcile it into the accumulated alternatives
(first-successful-match merge), count it, then continue on a comma or finish
on a closing bracket, recording `min_len = max_len =` the element count. -/
def parseArrayLoop : Nat → List Value → Nat → List Token → Option (Value × List Token)
  | 0, _, _, _ => none
  | fuel+1, values, n, ts =>
    match parse_value fuel ts with
    | some (v, rest) =>
      match rest with
      | .comma :: rest2 => parseArrayLoop fuel (mergeInto Value.merge_with values v) (n+1) rest2
      | .bracketClose :: rest2 => some (.array (mergeInto Value.merge_with values v) (n+1) (n+1), rest2)
      | _ => none
    | none => none

end

/-- describe models `describe` of src/main.rs lines 355-359: parse one value
from the token stream and render it; tokens following the first complete value
are never consumed.  The printed text is returned instead of written. -/
def describe (fuel : Nat) (tokens : List Token) : Option String :=
  (parse_value fuel tokens).map fun p => render p.1

/-- Wf singles out the schema values the program actually builds, per the
spec's data-model invariants: alternative lists hold at most one value per
variant (pairwise unmergeable — same-variant values always merge), object
keys are unique, and this holds recursively. -/
inductive Wf : Value → Prop where
  | string : ∀ ex m, Wf (.string ex m)
  | number : ∀ ex m, Wf (.number ex m)
  | boolean : Wf .boolean
  | null : Wf .null
  | object : ∀ pairs,
      (pairs.map Prod.fst).Nodup →
      (∀ k vs m, (k, (vs, m)) ∈ pairs → (vs.map Value.sort_key).Nodup) →
      (∀ k vs m, (k, (vs, m)) ∈ pairs → ∀ v ∈ vs, Wf v) →
      Wf (.object pairs)
  | array : ∀ values mn mx,
      (values.map Value.sort_key).Nodup →
      (∀ v ∈ values, Wf v) →
      Wf (.array values mn mx)

/-! Helper lemmas about the merge algebra. -/

/-- Merging values of different variants fails at any fuel, mirroring the
catch-all `=> Err(())` arm of src/main.rs line 179. -/
theorem mergeWithF_none_of_ne (fuel : Nat) (a b : Value)
    (h : a.sort_key ≠ b.sort_key) : mergeWithF fuel a b = none := by
  cases fuel with
  | zero => rfl
  | succ f =>
    cases a <;> cases b <;> simp [Value.sort_key] at h <;> simp [mergeWithF]

/-- Merging values of the same variant always succeeds at positive fuel: every
same-variant arm of src/main.rs lines 101-178 returns `Ok`. -/
theorem mergeWithF_isSome_iff (fuel : Nat) (a b : Value) :
    (mergeWithF (fuel + 1) a b).isSome ↔ a.sort_key = b.sort_key := by
  cases a <;> cases b <;> simp [mergeWithF, Value.sort_key]

/-- C1: for a key present in both objects the claim requires the merged
`is_optional` flag to be the logical OR of both sides' flags.  The code keeps
only the LEFT side's flag (src/main.rs line 139 never reads the other side's
`entry.1`).  On the real input `[[{"a":1}],[{"a":1},{"b":2}]]` the right-hand
inner-array element summary carries `a` with `is_optional = true` (one merged
object lacked `a`), yet the final merged object records `a` as NOT optional,
where the OR demanded by the claim (and the spec's own data-model invariant)
gives `true`.  The second conjunct shows the flag drop at merge level on the
smallest such pair. -/
theorem merge_object_keeps_left_optionality :
    parse_value 30
      [Token.bracketOpen, .bracketOpen, .curlyOpen, .string "\"a\"", .colon, .number "1",
       .curlyClose, .bracketClose, .comma, .bracketOpen, .curlyOpen, .string "\"a\"",
       .colon, .number "1", .curlyClose, .comma, .curlyOpen, .string "\"b\"", .colon,
       .number "2", .curlyClose, .bracketClose, .bracketClose]
      = some (.array
          [.array
            [.object [("a", ([.number ["1"] false], false)),
                      ("b", ([.number ["2"] false], true))]]
            1 2]
          2 2, [])
    ∧ Value.merge_with (.object [("a", ([.null], false))]) (.object [("a", ([.null], true))])
        = some (.object [("a", ([.null], false))]) :=
  ⟨rfl, rfl⟩

/-- C2: the claim requires the merged truncated flag to be true whenever either
operand's flag was true.  The code binds the right operand's flag to `_`
(src/main.rs lines 103-104) and never reads it, so when the example union fits
the cap the right side's truncation is silently lost.  The first conjunct
shows the truncated right operand is reachable (it is the element summary of
parsing `[1,2,3,4,5]`); the second shows merging it into `Number {1}` yields
`truncated = false` where the claim demands `true`. -/
theorem merge_scalar_drops_right_truncated :
    parse_value 20
      [Token.bracketOpen, .number "1", .comma, .number "2", .comma, .number "3",
       .comma, .number "4", .comma, .number "5", .bracketClose]
      = some (.array [.number ["1", "2", "3", "4"] true] 5 5, [])
    ∧ Value.merge_with (.number ["1"] false) (.number ["1", "2", "3", "4"] true)
        = some (.number ["1", "2", "3", "4"] false) :=
  ⟨rfl, rfl⟩

/-- C3 counterexample: the rendering of `merge(a,b)` differs from that of
`merge(b,a)` for the mergeable pair `a = Number {1} truncated`,
`b = Number {1} not truncated`: the merge keeps only the left operand's
truncated flag, so one direction renders "Number (1, ...)" and the other
"Number (1)". -/
theorem merge_render_not_commutative :
    ((Value.merge_with (.number ["1"] true) (.number ["1"] false)).map render)
      ≠ ((Value.merge_with (.number ["1"] false) (.number ["1"] true)).map render) := by
  decide

/-- C4: the claim says that once a 5th distinct literal is seen the truncated
flag stays true under all further merges.  Parsing `[[1],[1,2,3,4,5]]`, the
inner `[1,2,3,4,5]` produces the element summary `Number (1,2,3,4, ...)` with
`truncated = true`, but merging it into the outer accumulated element
`Number (1)` drops that flag (the right operand's flag is never read), ending
with `truncated = false` for a position at which five distinct literals were
observed — so the flag reverted. -/
theorem truncated_flag_reverts_on_merge :
    parse_value 30
      [Token.bracketOpen, .bracketOpen, .number "1", .bracketClose, .comma,
       .bracketOpen, .number "1", .comma, .number "2", .comma, .number "3", .comma,
       .number "4", .comma, .number "5", .bracketClose, .bracketClose]
      = some (.array [.array [.number ["1", "2", "3", "4"] false] 1 5] 2 2, []) :=
  rfl

/-- C5: merging two array schemas always succeeds and yields the length range
`[min(m1,m2), max(M1,M2)]` exactly (src/main.rs line 177). -/
theorem merge_array_length_range (es1 es2 : List Value) (m1 M1 m2 M2 : Nat) :
    ∃ es, Value.merge_with (.array es1 m1 M1) (.array es2 m2 M2)
      = some (.array es (Nat.min m1 m2) (Nat.max M1 M2)) := by
  exact ⟨_, rfl⟩

/-- C6: merge returns a mismatch exactly when the two operands are different
variants (String and Number counting as different), and succeeds on every
same-variant pair; in the embedding the mismatch is the value `none`, a normal
result, never an abort. -/
theorem merge_mismatch_iff_different_variant (a b : Value) :
    (Value.merge_with a b).isSome ↔ a.sort_key = b.sort_key := by
  have h := mergeWithF_isSome_iff (vsize b) a b
  simpa [Value.merge_with] using h

/-- C9: the rendered output is not a function of the input document alone: the
scalar-merge loop walks the right-hand `HashSet` in iteration order, which
Rust randomizes per process.  For the document `[[1,2,3],[4,5,6]]` the outer
merge walks the set `{4,5,6}`; the two list operands below are two iteration
orders of that same set (they are permutations of each other), and they
produce different rendered outputs, so two runs of the program can print
different text for the same document. -/
theorem render_depends_on_iteration_order :
    (["4", "5", "6"] : List String).Perm ["6", "5", "4"]
    ∧ ((Value.merge_with (.number ["1", "2", "3"] false) (.number ["4", "5", "6"] false)).map
          render)
        ≠ ((Value.merge_with (.number ["1", "2", "3"] false) (.number ["6", "5", "4"] false)).map
          render) := by
  exact ⟨by decide, by decide⟩

/-! Lemmas for merge idempotence on well-formed values. -/

/-- Size of a member of a value list. -/
theorem vsize_le_valuesSize {v : Value} {vs : List Value} (h : v ∈ vs) :
    vsize v ≤ valuesSize vs := by
  induction vs with
  | nil => cases h
  | cons x rest ih =>
    rcases List.mem_cons.mp h with rfl | h2
    · simp [valuesSize]
    · have := ih h2
      simp [valuesSize]
      omega

/-- Size of a field's alternative list inside an object's field list. -/
theorem valuesSize_lt_fieldsSize {k : String} {vs : List Value} {m : Bool}
    {sp : List (String × (List Value × Bool))} (h : (k, (vs, m)) ∈ sp) :
    valuesSize vs < fieldsSize sp := by
  induction sp with
  | nil => cases h
  | cons p rest ih =>
    rcases List.mem_cons.mp h with heq | h2
    · cases heq
      simp [fieldsSize]
      omega
    · obtain ⟨k1, vs1, m1⟩ := p
      have := ih h2
      simp [fieldsSize]
      omega

/-- Nested alternatives of an object are strictly smaller than the object. -/
theorem vsize_lt_object {v : Value} {k : String} {vs : List Value} {m : Bool}
    {sp : List (String × (List Value × Bool))}
    (hv : v ∈ vs) (hf : (k, (vs, m)) ∈ sp) : vsize v < vsize (.object sp) := by
  have h1 := vsize_le_valuesSize hv
  have h2 := valuesSize_lt_fieldsSize hf
  simp [vsize]
  omega

/-- Elements of an array are strictly smaller than the array. -/
theorem vsize_lt_array {v : Value} {vs : List Value} {mn mx : Nat}
    (hv : v ∈ vs) : vsize v < vsize (.array vs mn mx) := by
  have := vsize_le_valuesSize hv
  simp [vsize]
  omega

/-- lookupField finds the entry of a key that occurs in a duplicate-free
association list. -/
theorem lookupField_of_mem (pairs : List (String × (List Value × Bool)))
    (k : String) (e : List Value × Bool) (hmem : (k, e) ∈ pairs)
    (hkeys : (pairs.map Prod.fst).Nodup) : lookupField pairs k = some e := by
  induction pairs with
  | nil => cases hmem
  | cons p rest ih =>
    have hnd := hkeys
    rw [List.map_cons, List.nodup_cons] at hnd
    rcases List.mem_cons.mp hmem with heq | h2
    · cases heq
      simp [lookupField]
    · have hk : k ∈ rest.map Prod.fst := List.mem_map_of_mem _ h2
      have hne : p.1 ≠ k := fun h => hnd.1 (h ▸ hk)
      obtain ⟨k1, e1⟩ := p
      simp only [lookupField, if_neg hne]
      exact ih h2 hnd.2

/-- lookupField succeeds on the key of any entry of the list. -/
theorem lookupField_isSome_of_mem {pairs : List (String × (List Value × Bool))}
    {p : String × (List Value × Bool)} (hp : p ∈ pairs) :
    (lookupField pairs p.1).isNone = false := by
  induction pairs with
  | nil => cases hp
  | cons q rest ih =>
    obtain ⟨k1, e1⟩ := q
    by_cases h : k1 = p.1
    · simp [lookupField, h]
    · rcases List.mem_cons.mp hp with heq | h2
      · subst heq
        simp at h
      · simp only [lookupField, if_neg h]
        exact ih h2

/-- Mapping a function that fixes every element of a list is the identity. -/
theorem list_map_self {α : Type} (l : List α) (f : α → α) (h : ∀ p ∈ l, f p = p) :
    l.map f = l := by
  induction l with
  | nil => rfl
  | cons x rest ih =>
    rw [List.map_cons, h x (List.mem_cons_self _ _), ih (fun p hp => h p (List.mem_cons_of_mem _ hp))]

/-- Walking the right example list adds nothing when every right example is
already present on the left (src/main.rs lines 105-115 insert only new
entries). -/
theorem mergeExamples_subset :
    ∀ (ex2 ex1 : List String) (m : Bool), (∀ e ∈ ex2, e ∈ ex1) →
      mergeExamples ex1 m ex2 = (ex1, m) := by
  intro ex2
  induction ex2 with
  | nil => intro ex1 m _; rfl
  | cons e rest ih =>
    intro ex1 m h
    have he : e ∈ ex1 := h e (List.mem_cons_self _ _)
    by_cases hlen : MAX_EXAMPLES ≤ ex1.length
    · simp [mergeExamples, hlen, he]
    · simp only [mergeExamples, if_neg hlen, if_pos he]
      exact ih ex1 m (fun x hx => h x (List.mem_cons_of_mem _ hx))

/-- Reconciling a value that already occurs in an alternative list whose
sort keys are pairwise distinct replaces that value by its self-merge and
leaves the list unchanged. -/
theorem mergeInto_self (mw : Value → Value → Option Value) (l : List Value) (ov : Value)
    (hmem : ov ∈ l) (hself : mw ov ov = some ov)
    (hnone : ∀ x ∈ l, x.sort_key ≠ ov.sort_key → mw x ov = none)
    (hnodup : (l.map Value.sort_key).Nodup) :
    mergeInto mw l ov = l := by
  induction l with
  | nil => cases hmem
  | cons v rest ih =>
    have hnd := hnodup
    rw [List.map_cons, List.nodup_cons] at hnd
    rcases List.mem_cons.mp hmem with rfl | hov
    · simp [mergeInto, hself]
    · have hne : v.sort_key ≠ ov.sort_key := by
        intro he
        exact hnd.1 (he ▸ List.mem_map_of_mem _ hov)
      have hvnone := hnone v (List.mem_cons_self _ _) hne
      simp only [mergeInto, hvnone]
      rw [ih hov (fun x hx hne2 => hnone x (List.mem_cons_of_mem _ hx) hne2) hnd.2]

/-- Reconciling any sub-collection of an invariant-satisfying alternative list
into itself changes nothing. -/
theorem mergeAll_of_subset (mw : Value → Value → Option Value) (l : List Value)
    (hself : ∀ x ∈ l, mw x x = some x)
    (hnone : ∀ x ∈ l, ∀ y ∈ l, x.sort_key ≠ y.sort_key → mw x y = none)
    (hnodup : (l.map Value.sort_key).Nodup) :
    ∀ others, (∀ ov ∈ others, ov ∈ l) → mergeAll mw l others = l := by
  intro others
  induction others with
  | nil => intro _; rfl
  | cons ov rest ih =>
    intro hsub
    have hov : ov ∈ l := hsub ov (List.mem_cons_self _ _)
    have h1 : mergeInto mw l ov = l :=
      mergeInto_self mw l ov hov (hself ov hov)
        (fun x hx hne => hnone x hx ov hov hne) hnodup
    show mergeAll mw (mergeInto mw l ov) rest = l
    rw [h1]
    exact ih (fun x hx => hsub x (List.mem_cons_of_mem _ hx))

/-- Fuelled form of merge idempotence: merging a well-formed value with itself
returns it unchanged. -/
theorem merge_self_fuel :
    ∀ (fuel : Nat) (a : Value), vsize a < fuel → Wf a → mergeWithF fuel a a = some a := by
  intro fuel
  induction fuel with
  | zero => intro a h _; exact absurd h (Nat.not_lt_zero _)
  | succ f ih =>
    intro a hsize hwf
    cases hwf with
    | string ex m =>
      simp [mergeWithF, mergeExamples_subset ex ex m (fun _ he => he)]
    | number ex m =>
      simp [mergeWithF, mergeExamples_subset ex ex m (fun _ he => he)]
    | boolean => rfl
    | null => rfl
    | object pairs hkeys halts hwfs =>
      have hobj : vsize (Value.object pairs) ≤ f := Nat.lt_succ_iff.mp hsize
      have hfields : mergeFields (mergeWithF f) pairs pairs = pairs := by
        unfold mergeFields
        have hpart2 : (pairs.filter fun p => (lookupField pairs p.1).isNone) = [] := by
          apply List.filter_eq_nil_iff.mpr
          intro p hp
          simp [lookupField_isSome_of_mem hp]
        rw [hpart2]
        simp only [List.map_nil, List.append_nil]
        apply list_map_self
        intro p hp
        have hp2 : (p.1, (p.2.1, p.2.2)) ∈ pairs := by simpa using hp
        have hlk : lookupField pairs p.1 = some p.2 := by
          apply lookupField_of_mem _ _ _ _ hkeys
          simpa using hp
        have hma : mergeAll (mergeWithF f) p.2.1 p.2.1 = p.2.1 := by
          apply mergeAll_of_subset
          · intro x hx
            apply ih
            · have := vsize_lt_object hx hp2
              omega
            · exact hwfs p.1 p.2.1 p.2.2 hp2 x hx
          · intro x _ y _ hne
            exact mergeWithF_none_of_ne f x y hne
          · exact halts p.1 p.2.1 p.2.2 hp2
          · exact fun x hx => hx
        rw [hlk]
        show (p.1, (mergeAll (mergeWithF f) p.2.1 p.2.1, p.2.2)) = p
        rw [hma]
      simp [mergeWithF, hfields]
    | array vs mn mx hnodup hwfs =>
      have harr : vsize (Value.array vs mn mx) ≤ f := Nat.lt_succ_iff.mp hsize
      have hma : mergeAll (mergeWithF f) vs vs = vs := by
        apply mergeAll_of_subset
        · intro x hx
          apply ih
          · have := @vsize_lt_array x vs mn mx hx
            omega
          · exact hwfs x hx
        · intro x _ y _ hne
          exact mergeWithF_none_of_ne f x y hne
        · exact hnodup
        · exact fun x hx => hx
      simp [mergeWithF, hma]

/-- C7: merging a schema value with itself succeeds and returns the value
unchanged — hence it renders identically, with no change to any truncated
flag, optionality flag, or array length range.  The hypothesis `Wf a` is the
spec's own data-model invariant (alternatives for a key or array position are
pairwise unmergeable, i.e. have pairwise distinct variants, and object keys
are unique), which holds of every schema value the program builds. -/
theorem merge_self_identity (a : Value) (h : Wf a) :
    Value.merge_with a a = some a
    ∧ (Value.merge_with a a).map render = some (render a) := by
  have h1 : Value.merge_with a a = some a :=
    merge_self_fuel (vsize a + 1) a (Nat.lt_succ_self _) h
  exact ⟨h1, by rw [h1]; rfl⟩

/-- Witness for C7 at a concrete well-formed value containing an array, an
object, a scalar and a null. -/
theorem merge_self_identity_witness :
    Value.merge_with (.array [.null, .object [("a", ([.number ["1"] false], false))]] 2 2)
        (.array [.null, .object [("a", ([.number ["1"] false], false))]] 2 2)
      = some (.array [.null, .object [("a", ([.number ["1"] false], false))]] 2 2) := by
  have hwf : Wf (Value.array [.null, .object [("a", ([.number ["1"] false], false))]] 2 2) := by
    refine Wf.array _ _ _ (by decide) ?_
    intro v hv
    simp at hv
    rcases hv with rfl | rfl
    · exact Wf.null
    · refine Wf.object _ (by decide) ?_ ?_
      · intro k vs m hm
        simp at hm
        obtain ⟨-, rfl, -⟩ := hm
        decide
      · intro k vs m hm
        simp at hm
        obtain ⟨-, rfl, -⟩ := hm
        intro v2 hv2
        simp at hv2
        subst hv2
        exact Wf.number _ _
  exact (merge_self_identity _ hwf).1

/-! Lemmas for the amended commutativity statement. -/

/-- When the union of the two example sets fits within the cap, the scalar
merge loop computes exactly the left list followed by the new right examples
in order, and the truncated flag is exactly the left flag. -/
theorem mergeExamples_of_card :
    ∀ (ex2 ex1 : List String) (m : Bool), ex2.Nodup →
      (ex1 ++ ex2.filter fun e => decide (e ∉ ex1)).length ≤ MAX_EXAMPLES →
      mergeExamples ex1 m ex2 = (ex1 ++ ex2.filter fun e => decide (e ∉ ex1), m) := by
  intro ex2
  induction ex2 with
  | nil =>
    intro ex1 m _ _
    simp [mergeExamples]
  | cons e rest ih =>
    intro ex1 m hnd hlen
    have hnd2 := List.nodup_cons.mp hnd
    by_cases he : e ∈ ex1
    · have hfilter : ((e :: rest).filter fun x => decide (x ∉ ex1))
          = rest.filter fun x => decide (x ∉ ex1) := by
        simp [List.filter_cons, he]
      rw [hfilter] at hlen ⊢
      by_cases hlen4 : MAX_EXAMPLES ≤ ex1.length
      · have hz : (rest.filter fun x => decide (x ∉ ex1)).length = 0 := by
          rw [List.length_append] at hlen
          omega
        have hfe : (rest.filter fun x => decide (x ∉ ex1)) = [] :=
          List.length_eq_zero.mp hz
        rw [hfe]
        simp [mergeExamples, hlen4, he]
      · simp only [mergeExamples, if_neg hlen4, if_pos he]
        exact ih ex1 m hnd2.2 hlen
    · have hfilter : ((e :: rest).filter fun x => decide (x ∉ ex1))
          = e :: rest.filter fun x => decide (x ∉ ex1) := by
        simp [List.filter_cons, he]
      rw [hfilter] at hlen
      by_cases hlen4 : MAX_EXAMPLES ≤ ex1.length
      · exfalso
        rw [List.length_append] at hlen
        simp at hlen
        omega
      · simp only [mergeExamples, if_neg hlen4, if_neg he]
        have hfeq : (rest.filter fun x => decide (x ∉ ex1 ++ [e]))
            = rest.filter fun x => decide (x ∉ ex1) := by
          apply List.filter_congr
          intro x hx
          have hxe : x ≠ e := fun hh => hnd2.1 (hh ▸ hx)
          simp [List.mem_append, hxe]
        have hpre : ((ex1 ++ [e]) ++ rest.filter fun x => decide (x ∉ ex1 ++ [e])).length
            ≤ MAX_EXAMPLES := by
          rw [hfeq]
          simp only [List.length_append, List.length_cons, List.length_nil,
            List.length_singleton] at hlen ⊢
          omega
        have hrec := ih (ex1 ++ [e]) m hnd2.2 hpre
        rw [hrec, hfeq, hfilter]
        simp

/-- The two orders of forming the capped union are permutations of each other
when both example lists are duplicate-free. -/
theorem union_filter_perm (ex1 ex2 : List String) (h1 : ex1.Nodup) (h2 : ex2.Nodup) :
    (ex1 ++ ex2.filter fun e => decide (e ∉ ex1)).Perm
      (ex2 ++ ex1.filter fun e => decide (e ∉ ex2)) := by
  apply List.perm_of_nodup_nodup_toFinset_eq
  · refine List.Nodup.append h1 (h2.filter _) ?_
    intro x hx1 hx2
    have := (List.mem_filter.mp hx2).2
    simp at this
    exact this hx1
  · refine List.Nodup.append h2 (h1.filter _) ?_
    intro x hx1 hx2
    have := (List.mem_filter.mp hx2).2
    simp at this
    exact this hx1
  · apply Finset.ext
    intro x
    simp only [List.mem_toFinset, List.mem_append, List.mem_filter,
      decide_eq_true_eq]
    constructor
    · rintro (hx | ⟨hx, -⟩)
      · by_cases hx2 : x ∈ ex2
        · exact Or.inl hx2
        · exact Or.inr ⟨hx, hx2⟩
      · exact Or.inl hx
    · rintro (hx | ⟨hx, -⟩)
      · by_cases hx1 : x ∈ ex1
        · exact Or.inl hx1
        · exact Or.inr ⟨hx, hx1⟩
      · exact Or.inl hx

/-- Sorting two permuted example lists yields the same list: string order is a
linear order on the underlying character data. -/
theorem sortExamples_perm_eq {l1 l2 : List String} (h : l1.Perm l2) :
    sortExamples l1 = sortExamples l2 := by
  haveI htot : IsTotal String dataLe := ⟨fun a b => le_total a.data b.data⟩
  haveI htra : IsTrans String dataLe := ⟨fun _ _ _ hab hbc => le_trans hab hbc⟩
  haveI hant : IsAntisymm String dataLe := ⟨fun _ _ hab hba => String.ext (le_antisymm hab hba)⟩
  exact @List.eq_of_perm_of_sorted String dataLe hant _ _
    ((List.perm_insertionSort dataLe l1).trans (h.trans (List.perm_insertionSort dataLe l2).symm))
    (List.sorted_insertionSort dataLe l1)
    (List.sorted_insertionSort dataLe l2)

/-- Rendering a scalar string schema node depends only on the example set up
to permutation, for duplicate-free reorderings. -/
theorem render_string_eq_of_perm {l1 l2 : List String} (h : l1.Perm l2) (m : Bool) :
    render (.string l1 m) = render (.string l2 m) := by
  show "String (" ++ renderExamples l1 m ++ ")" = "String (" ++ renderExamples l2 m ++ ")"
  rw [show renderExamples l1 m = renderExamples l2 m from by
    simp only [renderExamples, sortExamples_perm_eq h]]

/-- Rendering a scalar number schema node depends only on the example set up
to permutation, for duplicate-free reorderings. -/
theorem render_number_eq_of_perm {l1 l2 : List String} (h : l1.Perm l2) (m : Bool) :
    render (.number l1 m) = render (.number l2 m) := by
  show "Number (" ++ renderExamples l1 m ++ ")" = "Number (" ++ renderExamples l2 m ++ ")"
  rw [show renderExamples l1 m = renderExamples l2 m from by
    simp only [renderExamples, sortExamples_perm_eq h]]

/-- C3 (amended): rendering of merge is commutative for same-kind scalar
operands with equal truncated flags and duplicate-free example sets whose
union fits within the 4-example cap (Boolean/Boolean and Null/Null pairs are
syntactically symmetric, and C7 covers them).  The original claim, quantified
over all mergeable pairs, is refuted by `merge_render_not_commutative`. -/
theorem merge_render_commutative_amended (ex1 ex2 : List String) (m : Bool)
    (h1 : ex1.Nodup) (h2 : ex2.Nodup)
    (hcap : (ex1 ++ ex2.filter fun e => decide (e ∉ ex1)).length ≤ MAX_EXAMPLES) :
    ((Value.string ex1 m).merge_with (.string ex2 m)).map render
      = ((Value.string ex2 m).merge_with (.string ex1 m)).map render
    ∧ ((Value.number ex1 m).merge_with (.number ex2 m)).map render
      = ((Value.number ex2 m).merge_with (.number ex1 m)).map render := by
  have hperm := union_filter_perm ex1 ex2 h1 h2
  have hcap2 : (ex2 ++ ex1.filter fun e => decide (e ∉ ex2)).length ≤ MAX_EXAMPLES := by
    rw [← hperm.length_eq]
    exact hcap
  have hm1 := mergeExamples_of_card ex2 ex1 m h2 hcap
  have hm2 := mergeExamples_of_card ex1 ex2 m h1 hcap2
  constructor
  · have e1 : (Value.string ex1 m).merge_with (.string ex2 m)
        = some (.string (ex1 ++ ex2.filter fun e => decide (e ∉ ex1)) m) := by
      show some (Value.string (mergeExamples ex1 m ex2).1 (mergeExamples ex1 m ex2).2) = _
      rw [hm1]
    have e2 : (Value.string ex2 m).merge_with (.string ex1 m)
        = some (.string (ex2 ++ ex1.filter fun e => decide (e ∉ ex2)) m) := by
      show some (Value.string (mergeExamples ex2 m ex1).1 (mergeExamples ex2 m ex1).2) = _
      rw [hm2]
    rw [e1, e2]
    exact congrArg some (render_string_eq_of_perm hperm m)
  · have e1 : (Value.number ex1 m).merge_with (.number ex2 m)
        = some (.number (ex1 ++ ex2.filter fun e => decide (e ∉ ex1)) m) := by
      show some (Value.number (mergeExamples ex1 m ex2).1 (mergeExamples ex1 m ex2).2) = _
      rw [hm1]
    have e2 : (Value.number ex2 m).merge_with (.number ex1 m)
        = some (.number (ex2 ++ ex1.filter fun e => decide (e ∉ ex2)) m) := by
      show some (Value.number (mergeExamples ex2 m ex1).1 (mergeExamples ex2 m ex1).2) = _
      rw [hm2]
    rw [e1, e2]
    exact congrArg some (render_number_eq_of_perm hperm m)

/-- Witness for the amended C3 at concrete duplicate-free example lists. -/
theorem merge_render_commutative_amended_witness :
    ((Value.string ["1"] false).merge_with (.string ["2"] false)).map render
      = ((Value.string ["2"] false).merge_with (.string ["1"] false)).map render :=
  (merge_render_commutative_amended ["1"] ["2"] false (by decide) (by decide) (by decide)).1

/-! Lemmas about the parser. -/

/-- An exhausted token stream inside an object literal is a parse failure. -/
theorem parseObjectLoop_nil (fuel : Nat) (pairs : List (String × (List Value × Bool))) :
    parseObjectLoop fuel pairs [] = none := by
  cases fuel <;> rfl

/-- An exhausted token stream is a parse failure. -/
theorem parse_value_nil (fuel : Nat) : parse_value fuel [] = none := by
  cases fuel <;> rfl

/-- An exhausted token stream inside an array literal is a parse failure. -/
theorem parseArrayLoop_nil (fuel : Nat) (values : List Value) (n : Nat) :
    parseArrayLoop fuel values n [] = none := by
  cases fuel with
  | zero => rfl
  | succ f => simp [parseArrayLoop, parse_value_nil]

/-- Tokens past the first complete value are never consumed: a successful
parse of a stream is preserved, with the same resulting value, when arbitrary
extra tokens are appended, and the leftover grows by exactly those tokens.
Stated simultaneously for the three mutually recursive parser functions. -/
theorem parse_extend (fuel : Nat) :
    (∀ ts v r, parse_value fuel ts = some (v, r) →
      ∀ ext, parse_value fuel (ts ++ ext) = some (v, r ++ ext)) ∧
    (∀ pairs ts v r, parseObjectLoop fuel pairs ts = some (v, r) →
      ∀ ext, parseObjectLoop fuel pairs (ts ++ ext) = some (v, r ++ ext)) ∧
    (∀ values n ts v r, parseArrayLoop fuel values n ts = some (v, r) →
      ∀ ext, parseArrayLoop fuel values n (ts ++ ext) = some (v, r ++ ext)) := by
  induction fuel with
  | zero =>
    refine ⟨?_, ?_, ?_⟩
    · intro ts v r h
      simp [parse_value] at h
    · intro pairs ts v r h
      simp [parseObjectLoop] at h
    · intro values n ts v r h
      simp [parseArrayLoop] at h
  | succ f ih =>
    obtain ⟨ihv, iho, iha⟩ := ih
    refine ⟨?_, ?_, ?_⟩
    · intro ts v r h ext
      cases ts with
      | nil => simp [parse_value] at h
      | cons t rest =>
        cases t with
        | curlyOpen =>
          cases rest with
          | nil =>
            have h2 : parseObjectLoop f [] ([] : List Token) = some (v, r) := h
            rw [parseObjectLoop_nil] at h2
            cases h2
          | cons t2 rest2 =>
            cases t2 with
            | curlyClose =>
              have h2 : (Value.object [], rest2) = (v, r) := Option.some.inj h
              injection h2 with hv hr
              subst hv
              subst hr
              rfl
            | curlyOpen => exact iho _ _ _ _ h ext
            | bracketOpen => exact iho _ _ _ _ h ext
            | bracketClose => exact iho _ _ _ _ h ext
            | colon => exact iho _ _ _ _ h ext
            | comma => exact iho _ _ _ _ h ext
            | string s => exact iho _ _ _ _ h ext
            | boolean => exact iho _ _ _ _ h ext
            | number s => exact iho _ _ _ _ h ext
            | null => exact iho _ _ _ _ h ext
        | bracketOpen =>
          cases rest with
          | nil =>
            have h2 : parseArrayLoop f [] 0 ([] : List Token) = some (v, r) := h
            rw [parseArrayLoop_nil] at h2
            cases h2
          | cons t2 rest2 =>
            cases t2 with
            | bracketClose =>
              have h2 : (Value.array [] 0 0, rest2) = (v, r) := Option.some.inj h
              injection h2 with hv hr
              subst hv
              subst hr
              rfl
            | curlyOpen => exact iha _ _ _ _ _ h ext
            | curlyClose => exact iha _ _ _ _ _ h ext
            | bracketOpen => exact iha _ _ _ _ _ h ext
            | colon => exact iha _ _ _ _ _ h ext
            | comma => exact iha _ _ _ _ _ h ext
            | string s => exact iha _ _ _ _ _ h ext
            | boolean => exact iha _ _ _ _ _ h ext
            | number s => exact iha _ _ _ _ _ h ext
            | null => exact iha _ _ _ _ _ h ext
        | curlyClose => simp [parse_value, Value.from_token] at h
        | bracketClose => simp [parse_value, Value.from_token] at h
        | colon => simp [parse_value, Value.from_token] at h
        | comma => simp [parse_value, Value.from_token] at h
        | string s =>
          have h2 : (Value.string [s] false, rest) = (v, r) := Option.some.inj h
          injection h2 with hv hr
          subst hv
          subst hr
          rfl
        | number s =>
          have h2 : (Value.number [s] false, rest) = (v, r) := Option.some.inj h
          injection h2 with hv hr
          subst hv
          subst hr
          rfl
        | boolean =>
          have h2 : (Value.boolean, rest) = (v, r) := Option.some.inj h
          injection h2 with hv hr
          subst hv
          subst hr
          rfl
        | null =>
          have h2 : (Value.null, rest) = (v, r) := Option.some.inj h
          injection h2 with hv hr
          subst hv
          subst hr
          rfl
    · intro pairs ts v r h ext
      cases ts with
      | nil => simp [parseObjectLoop] at h
      | cons t rest =>
        cases t with
        | string k =>
          by_cases hk : stripQuotes k ∈ pairs.map Prod.fst
          · simp [parseObjectLoop, hk] at h
          · cases rest with
            | nil => simp [parseObjectLoop, hk] at h
            | cons t2 rest2 =>
              cases t2 with
              | colon =>
                cases hpv : parse_value f rest2 with
                | none => simp [parseObjectLoop, hk, hpv] at h
                | some pr =>
                  obtain ⟨v1, rest3⟩ := pr
                  have hpv2 := ihv rest2 v1 rest3 hpv ext
                  cases rest3 with
                  | nil => simp [parseObjectLoop, hk, hpv] at h
                  | cons t3 rest4 =>
                    cases t3 with
                    | comma =>
                      have h2 : parseObjectLoop f
                          (pairs ++ [(stripQuotes k, ([v1], false))]) rest4 = some (v, r) := by
                        simpa [parseObjectLoop, hk, hpv] using h
                      have h3 := iho _ rest4 v r h2 ext
                      simp only [List.cons_append]
                      simp only [parseObjectLoop, if_neg hk]
                      rw [show rest2 ++ ext = rest2 ++ ext from rfl]
                      simp only [List.cons_append] at hpv2
                      rw [hpv2]
                      exact h3
                    | curlyClose =>
                      simp only [parseObjectLoop, if_neg hk, hpv, Option.some.injEq,
                        Prod.mk.injEq] at h
                      obtain ⟨hv, hr⟩ := h
                      subst hv
                      subst hr
                      simp only [List.cons_append]
                      simp only [parseObjectLoop, if_neg hk]
                      simp only [List.cons_append] at hpv2
                      rw [hpv2]
                    | curlyOpen => simp [parseObjectLoop, hk, hpv] at h
                    | bracketOpen => simp [parseObjectLoop, hk, hpv] at h
                    | bracketClose => simp [parseObjectLoop, hk, hpv] at h
                    | colon => simp [parseObjectLoop, hk, hpv] at h
                    | string s2 => simp [parseObjectLoop, hk, hpv] at h
                    | boolean => simp [parseObjectLoop, hk, hpv] at h
                    | number s2 => simp [parseObjectLoop, hk, hpv] at h
                    | null => simp [parseObjectLoop, hk, hpv] at h
              | curlyOpen => simp [parseObjectLoop, hk] at h
              | curlyClose => simp [parseObjectLoop, hk] at h
              | bracketOpen => simp [parseObjectLoop, hk] at h
              | bracketClose => simp [parseObjectLoop, hk] at h
              | comma => simp [parseObjectLoop, hk] at h
              | string s2 => simp [parseObjectLoop, hk] at h
              | boolean => simp [parseObjectLoop, hk] at h
              | number s2 => simp [parseObjectLoop, hk] at h
              | null => simp [parseObjectLoop, hk] at h
        | curlyOpen => simp [parseObjectLoop] at h
        | curlyClose => simp [parseObjectLoop] at h
        | bracketOpen => simp [parseObjectLoop] at h
        | bracketClose => simp [parseObjectLoop] at h
        | colon => simp [parseObjectLoop] at h
        | comma => simp [parseObjectLoop] at h
        | boolean => simp [parseObjectLoop] at h
        | number s => simp [parseObjectLoop] at h
        | null => simp [parseObjectLoop] at h
    · intro values n ts v r h ext
      cases hpv : parse_value f ts with
      | none => simp [parseArrayLoop, hpv] at h
      | some pr =>
        obtain ⟨v1, rest⟩ := pr
        have hpv2 := ihv ts v1 rest hpv ext
        cases rest with
        | nil => simp [parseArrayLoop, hpv] at h
        | cons t2 rest2 =>
          cases t2 with
          | comma =>
            have h2 : parseArrayLoop f (mergeInto Value.merge_with values v1) (n+1) rest2
                = some (v, r) := by
              simpa [parseArrayLoop, hpv] using h
            have h3 := iha _ _ rest2 v r h2 ext
            simp only [parseArrayLoop]
            simp only [List.cons_append] at hpv2
            rw [hpv2]
            exact h3
          | bracketClose =>
            simp only [parseArrayLoop, hpv, Option.some.injEq, Prod.mk.injEq] at h
            obtain ⟨hv, hr⟩ := h
            subst hv
            subst hr
            simp only [parseArrayLoop]
            simp only [List.cons_append] at hpv2
            rw [hpv2]
          | curlyOpen => simp [parseArrayLoop, hpv] at h
          | curlyClose => simp [parseArrayLoop, hpv] at h
          | bracketOpen => simp [parseArrayLoop, hpv] at h
          | colon => simp [parseArrayLoop, hpv] at h
          | string s2 => simp [parseArrayLoop, hpv] at h
          | boolean => simp [parseArrayLoop, hpv] at h
          | number s2 => simp [parseArrayLoop, hpv] at h
          | null => simp [parseArrayLoop, hpv] at h

/-- C10: when a token stream begins with one complete well-formed JSON value
(the parser consumes it leaving nothing), the program parses only that first
value and ignores any trailing tokens: appending arbitrary tokens leaves the
parse successful with the same schema value, and `describe` produces the same
rendered output as for the first value alone. -/
theorem trailing_tokens_ignored (fuel : Nat) (ts ext : List Token) (v : Value)
    (h : parse_value fuel ts = some (v, [])) :
    parse_value fuel (ts ++ ext) = some (v, ext)
    ∧ describe fuel (ts ++ ext) = describe fuel ts := by
  have h2 := (parse_extend fuel).1 ts v [] h ext
  rw [List.nil_append] at h2
  refine ⟨h2, ?_⟩
  simp [describe, h2, h]

/-- Witness for C10: the document `1` followed by a stray comma token parses
to the same scalar schema. -/
theorem trailing_tokens_ignored_witness :
    parse_value 2 ([Token.number "1"] ++ [Token.comma]) = some (.number ["1"] false, [Token.comma])
    ∧ describe 2 ([Token.number "1"] ++ [Token.comma]) = describe 2 [Token.number "1"] :=
  trailing_tokens_ignored 2 [Token.number "1"] [Token.comma] (.number ["1"] false) rfl

/-- C8: a duplicate key within a single object literal (compared after
stripping the quote delimiters) makes the parse fail — the member loop
returns `none` the moment the incoming key is already recorded for this
literal (src/main.rs lines 304-306) — and concretely the whole document
`{"a":1,"a":2}` is rejected, while the same key occurring in two distinct
object instances merged as array elements, `[{"a":1},{"a":1}]`, parses
successfully. -/
theorem duplicate_key_rejected :
    (∀ (fuel : Nat) (pairs : List (String × (List Value × Bool))) (k : String)
        (rest : List Token), stripQuotes k ∈ pairs.map Prod.fst →
      parseObjectLoop (fuel + 1) pairs (Token.string k :: rest) = none)
    ∧ parse_value 10
        [Token.curlyOpen, .string "\"a\"", .colon, .number "1", .comma, .string "\"a\"",
         .colon, .number "2", .curlyClose] = none
    ∧ parse_value 30
        [Token.bracketOpen, .curlyOpen, .string "\"a\"", .colon, .number "1", .curlyClose,
         .comma, .curlyOpen, .string "\"a\"", .colon, .number "1", .curlyClose,
         .bracketClose]
        = some (.array [.object [("a", ([.number ["1"] false], false))]] 2 2, []) := by
  refine ⟨?_, rfl, rfl⟩
  intro fuel pairs k rest hk
  simp [parseObjectLoop, hk]

/-- Witness for C8's duplicate-key failure at a concrete loop state. -/
theorem duplicate_key_rejected_witness :
    parseObjectLoop 5 [("a", ([Value.number ["1"] false], false))] [Token.string "\"a\""]
      = none :=
  duplicate_key_rejected.1 4 [("a", ([Value.number ["1"] false], false))] "\"a\"" []
    (by decide)
